import Mathlib

/-!
Shallow embedding of the traceparent codec of `core.go` in the `trace`
package (repository Soreing/trace).

A Go string is a finite sequence of bytes; we model it as `List Nat`
where each element is a byte value (`< 256` when the string comes from
Go).  Byte (`uint8`) arithmetic of the source is modelled on `Nat` with
an explicit `% 256`.

`DecodeTraceparent` indexes the header string (`header[2]`,
`header[3+(i<<1)]`, ...); an out-of-bounds index would panic in Go, so
the embedding performs each access through `List.get?` and propagates
`none` for an out-of-bounds access: `DecodeTraceparent h = none` models
a panic, `some r` models a normal return carrying Go's named return
values `(ver, tid, pid, flg, err)`.
-/

namespace Trace

/-- The six error values `fmt.Errorf` produces in `DecodeTraceparent`,
one constructor per distinct message string. -/
inductive DecodeErr where
  /-- Go error string "invalid length". -/
  | invalidLength
  /-- Go error string "invalid format". -/
  | invalidFormat
  /-- Go error string "invalid version". -/
  | invalidVersion
  /-- Go error string "invalid flag". -/
  | invalidFlag
  /-- Go error string "invalid trace id". -/
  | invalidTraceId
  /-- Go error string "invalid parent id". -/
  | invalidParentId
deriving DecidableEq, Repr

/-- The five named return values of Go's `DecodeTraceparent`:
`ver byte, tid [16]byte, pid [8]byte, flg byte, err error`.
`err = none` models `err == nil`. -/
structure DecodeResult where
  ver : Nat
  tid : List Nat
  pid : List Nat
  flg : Nat
  err : Option DecodeErr
deriving DecidableEq, Repr

/-- Go zero value of `tid [16]byte`. -/
def zeroTid : List Nat := List.replicate 16 0

/-- Go zero value of `pid [8]byte`. -/
def zeroPid : List Nat := List.replicate 8 0

/-- One hex nibble the way the source decodes it (`c` is a byte):
`if d = c - '0'; d > 9 { if d = c - 'W'; d > 15 || d < 10 { error } }`.
`'0' = 48`, `'W' = 87`; the subtractions are `uint8` arithmetic, hence
the `+ 256 ... % 256`.  `none` is the error branch, `some d` the decoded
nibble. -/
def decNib (c : Nat) : Option Nat :=
  let d := (c + 256 - 48) % 256
  if d > 9 then
    let d := (c + 256 - 87) % 256
    if d > 15 ∨ d < 10 then none else some d
  else some d

/-- The id-decoding loop of the source
(`for i := 0; i < n; i++ { c = header[base+(i<<1)]; ... }`), decoding
`k` remaining bytes starting at byte index `i`.  Returns `none` on an
out-of-bounds string access (Go panic); otherwise
`some (bytes, ok)` where `ok = false` models the `invalid ... id` early
return on a bad hex character — in that case the bytes from the failing
position on are the zero values Go never assigned, exactly as in the
source's named return array. -/
def decodePairs (header : List Nat) (base : Nat) : Nat → Nat → Option (List Nat × Bool)
  | _, 0 => some ([], true)
  | i, k+1 =>
    match header.get? (base + 2*i) with
    | none => none
    | some c1 =>
      match decNib c1 with
      | none => some (List.replicate (k+1) 0, false)
      | some d1 =>
        match header.get? (base + 2*i + 1) with
        | none => none
        | some c2 =>
          match decNib c2 with
          | none => some (List.replicate (k+1) 0, false)
          | some d2 =>
            match decodePairs header base (i+1) k with
            | none => none
            | some (rest, ok) => some (((16*d1 + d2) % 256) :: rest, ok)

/-- The trace-id and parent-id stages of `DecodeTraceparent` (lines
134–184 of `core.go`), entered after the version and flag checks have
set `ver = 0` and `flg`.  `tid[i] = (d1 << 4) + d2` is the decoded
byte; `val` accumulates the sum of decoded bytes and `val == 0` after a
full loop is the all-zero rejection. -/
def decodeIds (header : List Nat) (flg : Nat) : Option DecodeResult :=
  match decodePairs header 3 0 16 with
  | none => none
  | some (tid, false) => some ⟨0, tid, zeroPid, flg, some .invalidTraceId⟩
  | some (tid, true) =>
    if tid.sum = 0 then some ⟨0, tid, zeroPid, flg, some .invalidTraceId⟩
    else
      match decodePairs header 36 0 8 with
      | none => none
      | some (pid, false) => some ⟨0, tid, pid, flg, some .invalidParentId⟩
      | some (pid, true) =>
        if pid.sum = 0 then some ⟨0, tid, pid, flg, some .invalidParentId⟩
        else some ⟨0, tid, pid, flg, none⟩

/-- Decoder `DecodeTraceparent` of `core.go`: length check, dash check
(`header[2] != '-' || header[35] != '-' || header[52] != '-'`,
`'-' = 45`), version switch on `header[:2]` against `"00"`
(`'0' = 48`), flag switch on `header[53:]` against `"00"` / `"01"`,
then the two id loops.  Early returns carry the named return values
assigned so far; all later values keep their Go zero values. -/
def DecodeTraceparent (header : List Nat) : Option DecodeResult :=
  if header.length ≠ 55 then
    some ⟨0, zeroTid, zeroPid, 0, some .invalidLength⟩
  else
    match header.get? 2 with
    | none => none
    | some a =>
      if a ≠ 45 then some ⟨0, zeroTid, zeroPid, 0, some .invalidFormat⟩
      else
        match header.get? 35 with
        | none => none
        | some b =>
          if b ≠ 45 then some ⟨0, zeroTid, zeroPid, 0, some .invalidFormat⟩
          else
            match header.get? 52 with
            | none => none
            | some c =>
              if c ≠ 45 then some ⟨0, zeroTid, zeroPid, 0, some .invalidFormat⟩
              else
                match header.get? 0, header.get? 1 with
                | some v0, some v1 =>
                  if v0 = 48 ∧ v1 = 48 then
                    match header.get? 53, header.get? 54 with
                    | some f0, some f1 =>
                      if f0 = 48 ∧ f1 = 48 then decodeIds header 0
                      else if f0 = 48 ∧ f1 = 49 then decodeIds header 1
                      else some ⟨0, zeroTid, zeroPid, 0, some .invalidFlag⟩
                    | _, _ => none
                  else some ⟨0, zeroTid, zeroPid, 0, some .invalidVersion⟩
                | _, _ => none

/-- Hex digit table of Go's `encoding/hex`: lower-case alphabet,
`'0'..'9'` then `'a'..'f'`. -/
def hexChar (d : Nat) : Nat := if d < 10 then 48 + d else 87 + d

/-- Model of `hex.Encode` on a single byte: two lower-case hex
characters, high nibble first. -/
def byteToHex (b : Nat) : List Nat := [hexChar (b % 256 / 16), hexChar (b % 16)]

/-- Model of `hex.Encode` on a byte slice. -/
def bytesToHex (bs : List Nat) : List Nat := (bs.map byteToHex).flatten

/-- Encoder `EncodeTraceparent` of `core.go`: a 55-byte buffer with `'-'` at
indices 2, 35 and 52, `hex.Encode` of the version into `[0:2]`, of the
trace id into `[3:35]`, of the parent id into `[36:52]` and of the flag
into `[53:55]`.  Writing the four slices and the three dashes of the
fixed layout is the same as this concatenation. -/
def EncodeTraceparent (ver : Nat) (tid : List Nat) (pid : List Nat) (flg : Nat) : List Nat :=
  byteToHex ver ++ ([45] ++ (bytesToHex tid ++ ([45] ++ (bytesToHex pid ++ ([45] ++ byteToHex flg)))))

/-! ### Basic facts about the hex alphabet -/

/-- Decoding inverts the encoder's digit table on every nibble. -/
theorem decNib_hexChar : ∀ d < 16, decNib (hexChar d) = some d := by decide

/-- On byte values (the only values a Go string can hold), a nibble the
decoder accepts is exactly an output of the encoder's digit table. -/
theorem decNib_byte {c d : Nat} (hc : c < 256) (h : decNib c = some d) :
    d < 16 ∧ c = hexChar d := by
  unfold decNib at h
  simp only [gt_iff_lt] at h
  unfold hexChar
  split_ifs at h with h1 h2 <;> simp at h <;> split_ifs with h3 <;> omega

theorem bytesToHex_cons (b : Nat) (bs : List Nat) :
    bytesToHex (b :: bs) =
      hexChar (b % 256 / 16) :: hexChar (b % 16) :: bytesToHex bs := rfl

theorem bytesToHex_length (bs : List Nat) :
    (bytesToHex bs).length = 2 * bs.length := by
  induction bs with
  | nil => rfl
  | cons b bs ih =>
    rw [bytesToHex_cons]
    simp only [List.length_cons, ih]
    omega

/-- Characters of `hex.Encode` output, position by position: character
`2*j` is the high nibble of byte `j`, character `2*j + 1` its low
nibble. -/
theorem bytesToHex_get? (bs : List Nat) (j : Nat) (hj : j < bs.length) :
    (bytesToHex bs).get? (2*j) = some (hexChar ((bs.getD j 0) % 256 / 16)) ∧
    (bytesToHex bs).get? (2*j + 1) = some (hexChar (bs.getD j 0 % 16)) := by
  induction bs generalizing j with
  | nil => simp at hj
  | cons b bs ih =>
    rw [bytesToHex_cons]
    match j with
    | 0 => simp
    | j+1 =>
      have hj' : j < bs.length := by simpa using hj
      have e1 : 2*(j+1) = 2*j + 1 + 1 := by ring
      rw [e1]
      simp only [List.get?_cons_succ, List.getD_cons_succ]
      exact ih j hj'

/-! ### The id-decoding loop -/

/-- Completeness of the id loop: when the header holds the hex encoding
of `bs` at the scanned positions, the loop succeeds and returns `bs`. -/
theorem decodePairs_complete (header : List Nat) (base : Nat) :
    ∀ (bs : List Nat) (i : Nat),
      (∀ b ∈ bs, b < 256) →
      (∀ j, j < bs.length →
        header.get? (base + 2*(i+j)) = some (hexChar ((bs.getD j 0) % 256 / 16)) ∧
        header.get? (base + 2*(i+j) + 1) = some (hexChar (bs.getD j 0 % 16))) →
      decodePairs header base i bs.length = some (bs, true) := by
  intro bs
  induction bs with
  | nil => intro i _ _; rfl
  | cons b bs ih =>
    intro i hb hget
    have h0 := hget 0 (by simp)
    simp only [Nat.add_zero, List.getD_cons_zero] at h0
    have hb0 : b < 256 := hb b (by simp)
    have hrest := ih (i+1) (fun x hx => hb x (by simp [hx])) (fun j hj => by
      have h1 := hget (j+1) (by simpa using Nat.succ_lt_succ hj)
      have e : i + (j + 1) = i + 1 + j := by omega
      simpa only [e, List.getD_cons_succ] using h1)
    have hd1 : decNib (hexChar (b % 256 / 16)) = some (b % 256 / 16) :=
      decNib_hexChar _ (by omega)
    have hd2 : decNib (hexChar (b % 16)) = some (b % 16) :=
      decNib_hexChar _ (by omega)
    have hbyte : (16 * (b % 256 / 16) + b % 16) % 256 = b := by omega
    show decodePairs header base i (bs.length + 1) = _
    rw [decodePairs]
    simp only [h0.1, h0.2, hd1, hd2, hrest]
    simp [hbyte]

/-- Soundness of the id loop: when the loop succeeds, every scanned
character was accepted by `decNib` and the returned bytes are built
from the decoded nibbles. -/
theorem decodePairs_sound (header : List Nat) (base : Nat) :
    ∀ (k i : Nat) (bs : List Nat),
      decodePairs header base i k = some (bs, true) →
      bs.length = k ∧
      ∀ j, j < k →
        ∃ c1 d1 c2 d2,
          header.get? (base + 2*(i+j)) = some c1 ∧ decNib c1 = some d1 ∧
          header.get? (base + 2*(i+j) + 1) = some c2 ∧ decNib c2 = some d2 ∧
          bs.getD j 0 = (16*d1 + d2) % 256 := by
  intro k
  induction k with
  | zero =>
    intro i bs h
    simp only [decodePairs, Option.some.injEq, Prod.mk.injEq] at h
    obtain ⟨h1, -⟩ := h
    subst h1
    exact ⟨rfl, fun j hj => absurd hj (by omega)⟩
  | succ k ih =>
    intro i bs h
    rw [decodePairs] at h
    cases hc1 : header.get? (base + 2*i) with
    | none =>
      simp only [hc1] at h
      exact Option.noConfusion h
    | some c1 =>
      simp only [hc1] at h
      cases hd1 : decNib c1 with
      | none => simp [hd1] at h
      | some d1 =>
        simp only [hd1] at h
        cases hc2 : header.get? (base + 2*i + 1) with
        | none =>
          simp only [hc2] at h
          exact Option.noConfusion h
        | some c2 =>
          simp only [hc2] at h
          cases hd2 : decNib c2 with
          | none => simp [hd2] at h
          | some d2 =>
            simp only [hd2] at h
            cases hp : decodePairs header base (i+1) k with
            | none => simp [hp] at h
            | some p =>
              obtain ⟨rest, ok⟩ := p
              simp only [hp, Option.some.injEq, Prod.mk.injEq] at h
              obtain ⟨hbs, hok⟩ := h
              subst hok
              subst hbs
              obtain ⟨hlen, hrest⟩ := ih (i+1) rest hp
              refine ⟨by simp [hlen], fun j hj => ?_⟩
              match j with
              | 0 =>
                exact ⟨c1, d1, c2, d2, by simpa using hc1, hd1, by simpa using hc2,
                  hd2, by simp⟩
              | j+1 =>
                have := hrest j (by omega)
                obtain ⟨e1, f1, e2, f2, g1, g2, g3, g4, g5⟩ := this
                have e : i + (j + 1) = i + 1 + j := by omega
                exact ⟨e1, f1, e2, f2, by rwa [e], g2, by rwa [e], g4, by simpa using g5⟩

/-- The id loop never makes an out-of-bounds access when every scanned
index is inside the header. -/
theorem decodePairs_ne_none (header : List Nat) (base : Nat) :
    ∀ (k i : Nat), (∀ j, j < k → base + 2*(i+j) + 1 < header.length) →
      decodePairs header base i k ≠ none := by
  intro k
  induction k with
  | zero => intro i _; simp [decodePairs]
  | succ k ih =>
    intro i hb
    have hx := hb 0 (by omega)
    rw [decodePairs]
    intro h
    split at h
    · rename_i hc1
      rw [List.get?_eq_none] at hc1
      omega
    · split at h
      · simp at h
      · split at h
        · rename_i hc2
          rw [List.get?_eq_none] at hc2
          omega
        · split at h
          · simp at h
          · split at h
            · rename_i hp
              refine ih (i+1) (fun j hj => ?_) hp
              have := hb (j+1) (by omega)
              have e : i + (j + 1) = i + 1 + j := by omega
              rwa [e] at this
            · simp at h

/-! ### Positions of the encoded header -/

theorem byteToHex_length (b : Nat) : (byteToHex b).length = 2 := rfl

theorem EncodeTraceparent_length (ver : Nat) (tid pid : List Nat) (flg : Nat)
    (ht : tid.length = 16) (hp : pid.length = 8) :
    (EncodeTraceparent ver tid pid flg).length = 55 := by
  simp [EncodeTraceparent, bytesToHex_length, byteToHex, ht, hp]

theorem Encode_get?_ver (ver : Nat) (tid pid : List Nat) (flg : Nat) :
    (EncodeTraceparent ver tid pid flg).get? 0 = some (hexChar (ver % 256 / 16)) ∧
    (EncodeTraceparent ver tid pid flg).get? 1 = some (hexChar (ver % 16)) ∧
    (EncodeTraceparent ver tid pid flg).get? 2 = some 45 :=
  ⟨rfl, rfl, rfl⟩

theorem Encode_get?_tid (ver : Nat) (tid pid : List Nat) (flg : Nat)
    (ht : tid.length = 16) (j : Nat) (hj : j < 16) :
    (EncodeTraceparent ver tid pid flg).get? (3 + 2*j) =
      some (hexChar ((tid.getD j 0) % 256 / 16)) ∧
    (EncodeTraceparent ver tid pid flg).get? (3 + 2*j + 1) =
      some (hexChar (tid.getD j 0 % 16)) := by
  have hV := byteToHex_length ver
  have h45 : ([45] : List Nat).length = 1 := rfl
  have hT : (bytesToHex tid).length = 32 := by rw [bytesToHex_length, ht]
  have hg := bytesToHex_get? tid j (by omega)
  unfold EncodeTraceparent
  constructor
  · rw [List.get?_append_right (by omega), hV, List.get?_append_right (by omega), h45,
      (by omega : 3 + 2*j - 2 - 1 = 2*j), List.get?_append (by omega)]
    exact hg.1
  · rw [List.get?_append_right (by omega), hV, List.get?_append_right (by omega), h45,
      (by omega : 3 + 2*j + 1 - 2 - 1 = 2*j + 1), List.get?_append (by omega)]
    exact hg.2

theorem Encode_get?_dash35 (ver : Nat) (tid pid : List Nat) (flg : Nat)
    (ht : tid.length = 16) :
    (EncodeTraceparent ver tid pid flg).get? 35 = some 45 := by
  have hV := byteToHex_length ver
  have h45 : ([45] : List Nat).length = 1 := rfl
  have hT : (bytesToHex tid).length = 32 := by rw [bytesToHex_length, ht]
  unfold EncodeTraceparent
  rw [List.get?_append_right (by omega), hV, List.get?_append_right (by omega), h45,
    (by omega : (35:Nat) - 2 - 1 = 32), List.get?_append_right (by omega), hT,
    (by omega : (32:Nat) - 32 = 0)]
  rfl

theorem Encode_get?_pid (ver : Nat) (tid pid : List Nat) (flg : Nat)
    (ht : tid.length = 16) (hp : pid.length = 8) (j : Nat) (hj : j < 8) :
    (EncodeTraceparent ver tid pid flg).get? (36 + 2*j) =
      some (hexChar ((pid.getD j 0) % 256 / 16)) ∧
    (EncodeTraceparent ver tid pid flg).get? (36 + 2*j + 1) =
      some (hexChar (pid.getD j 0 % 16)) := by
  have hV := byteToHex_length ver
  have h45 : ([45] : List Nat).length = 1 := rfl
  have hT : (bytesToHex tid).length = 32 := by rw [bytesToHex_length, ht]
  have hP : (bytesToHex pid).length = 16 := by rw [bytesToHex_length, hp]
  have hg := bytesToHex_get? pid j (by omega)
  unfold EncodeTraceparent
  constructor
  · rw [List.get?_append_right (by omega), hV, List.get?_append_right (by omega), h45,
      List.get?_append_right (by omega), hT, List.get?_append_right (by omega), h45,
      (by omega : 36 + 2*j - 2 - 1 - 32 - 1 = 2*j), List.get?_append (by omega)]
    exact hg.1
  · rw [List.get?_append_right (by omega), hV, List.get?_append_right (by omega), h45,
      List.get?_append_right (by omega), hT, List.get?_append_right (by omega), h45,
      (by omega : 36 + 2*j + 1 - 2 - 1 - 32 - 1 = 2*j + 1), List.get?_append (by omega)]
    exact hg.2

theorem Encode_get?_dash52 (ver : Nat) (tid pid : List Nat) (flg : Nat)
    (ht : tid.length = 16) (hp : pid.length = 8) :
    (EncodeTraceparent ver tid pid flg).get? 52 = some 45 := by
  have hV := byteToHex_length ver
  have h45 : ([45] : List Nat).length = 1 := rfl
  have hT : (bytesToHex tid).length = 32 := by rw [bytesToHex_length, ht]
  have hP : (bytesToHex pid).length = 16 := by rw [bytesToHex_length, hp]
  unfold EncodeTraceparent
  rw [List.get?_append_right (by omega), hV, List.get?_append_right (by omega), h45,
    List.get?_append_right (by omega), hT, List.get?_append_right (by omega), h45,
    (by omega : (52:Nat) - 2 - 1 - 32 - 1 = 16), List.get?_append_right (by omega), hP,
    (by omega : (16:Nat) - 16 = 0)]
  rfl

theorem Encode_get?_flg (ver : Nat) (tid pid : List Nat) (flg : Nat)
    (ht : tid.length = 16) (hp : pid.length = 8) :
    (EncodeTraceparent ver tid pid flg).get? 53 = some (hexChar (flg % 256 / 16)) ∧
    (EncodeTraceparent ver tid pid flg).get? 54 = some (hexChar (flg % 16)) := by
  have hV := byteToHex_length ver
  have h45 : ([45] : List Nat).length = 1 := rfl
  have hT : (bytesToHex tid).length = 32 := by rw [bytesToHex_length, ht]
  have hP : (bytesToHex pid).length = 16 := by rw [bytesToHex_length, hp]
  unfold EncodeTraceparent
  constructor
  · rw [List.get?_append_right (by omega), hV, List.get?_append_right (by omega), h45,
      List.get?_append_right (by omega), hT, List.get?_append_right (by omega), h45,
      (by omega : (53:Nat) - 2 - 1 - 32 - 1 = 17), List.get?_append_right (by omega), hP,
      (by omega : (17:Nat) - 16 = 1), List.get?_append_right (by omega), h45,
      (by omega : (1:Nat) - 1 = 0)]
    rfl
  · rw [List.get?_append_right (by omega), hV, List.get?_append_right (by omega), h45,
      List.get?_append_right (by omega), hT, List.get?_append_right (by omega), h45,
      (by omega : (54:Nat) - 2 - 1 - 32 - 1 = 18), List.get?_append_right (by omega), hP,
      (by omega : (18:Nat) - 16 = 2), List.get?_append_right (by omega), h45,
      (by omega : (2:Nat) - 1 = 1)]
    rfl

/-! ### Decode-side validation stages -/

theorem get?_some_of_lt {l : List Nat} {n : Nat} (h : n < l.length) :
    ∃ c, l.get? n = some c := by
  cases hc : l.get? n with
  | none => rw [List.get?_eq_none] at hc; omega
  | some c => exact ⟨c, rfl⟩

/-- C7: any input whose length differs from 55 is rejected with the
"invalid length" error before any other validation, regardless of its
content, and every returned value is the zero value. -/
theorem DecodeTraceparent_invalid_length (header : List Nat)
    (h : header.length ≠ 55) :
    DecodeTraceparent header = some ⟨0, zeroTid, zeroPid, 0, some .invalidLength⟩ := by
  rw [DecodeTraceparent, if_pos h]

/-- C7 witness: a 54-character string of hex zeros fails with the
length error. -/
theorem DecodeTraceparent_invalid_length_witness :
    DecodeTraceparent (List.replicate 54 48) =
      some ⟨0, zeroTid, zeroPid, 0, some .invalidLength⟩ :=
  DecodeTraceparent_invalid_length (List.replicate 54 48) (by decide)

/-- C8: a 55-character input with a non-dash byte at index 2, 35 or 52
is rejected with the "invalid format" error, regardless of all other
content. -/
theorem DecodeTraceparent_invalid_format (header : List Nat)
    (hl : header.length = 55)
    (hd : header.get? 2 ≠ some 45 ∨ header.get? 35 ≠ some 45 ∨
          header.get? 52 ≠ some 45) :
    DecodeTraceparent header = some ⟨0, zeroTid, zeroPid, 0, some .invalidFormat⟩ := by
  obtain ⟨a, ha⟩ := get?_some_of_lt (l := header) (n := 2) (by omega)
  obtain ⟨b, hb⟩ := get?_some_of_lt (l := header) (n := 35) (by omega)
  obtain ⟨c, hc⟩ := get?_some_of_lt (l := header) (n := 52) (by omega)
  have hd' : a ≠ 45 ∨ b ≠ 45 ∨ c ≠ 45 := by
    rcases hd with h | h | h
    · exact Or.inl (fun e => h (e ▸ ha))
    · exact Or.inr (Or.inl (fun e => h (e ▸ hb)))
    · exact Or.inr (Or.inr (fun e => h (e ▸ hc)))
  rw [DecodeTraceparent, if_neg (by omega)]
  simp only [ha, hb, hc]
  by_cases h2 : a = 45
  · rw [if_neg (by omega)]
    by_cases h35 : b = 45
    · rw [if_neg (by omega)]
      have hc45 : c ≠ 45 := by tauto
      rw [if_pos hc45]
    · rw [if_pos h35]
  · rw [if_pos h2]

/-- C8 witness: dashes replaced by a space at index 35. -/
theorem DecodeTraceparent_invalid_format_witness :
    DecodeTraceparent
      (("00-0102030405060708090a0b0c0d0e0f10 0102030405060708-01".toList).map Char.toNat) =
      some ⟨0, zeroTid, zeroPid, 0, some .invalidFormat⟩ :=
  DecodeTraceparent_invalid_format _ (by decide) (by decide)

/-- C6: on a 55-character, correctly-dashed input the version bytes are
compared against the literal characters `"00"` — anything else is
"invalid version" — and then the flag bytes against the literals `"00"`
and `"01"` — anything else is "invalid flag".  Neither conclusion
assumes anything about the trace-id bytes (indices 3–34) or parent-id
bytes (indices 36–51): both checks run before any id character is
examined. -/
theorem DecodeTraceparent_version_flag (header : List Nat)
    (hl : header.length = 55)
    (h2 : header.get? 2 = some 45) (h35 : header.get? 35 = some 45)
    (h52 : header.get? 52 = some 45) :
    (¬ (header.get? 0 = some 48 ∧ header.get? 1 = some 48) →
      DecodeTraceparent header = some ⟨0, zeroTid, zeroPid, 0, some .invalidVersion⟩) ∧
    ((header.get? 0 = some 48 ∧ header.get? 1 = some 48) →
     ¬ (header.get? 53 = some 48 ∧
        (header.get? 54 = some 48 ∨ header.get? 54 = some 49)) →
      DecodeTraceparent header = some ⟨0, zeroTid, zeroPid, 0, some .invalidFlag⟩) := by
  obtain ⟨v0, hv0⟩ := get?_some_of_lt (l := header) (n := 0) (by omega)
  obtain ⟨v1, hv1⟩ := get?_some_of_lt (l := header) (n := 1) (by omega)
  obtain ⟨f0, hf0⟩ := get?_some_of_lt (l := header) (n := 53) (by omega)
  obtain ⟨f1, hf1⟩ := get?_some_of_lt (l := header) (n := 54) (by omega)
  constructor
  · intro hver
    have hv' : ¬ (v0 = 48 ∧ v1 = 48) := by
      intro ⟨e0, e1⟩; exact hver ⟨e0 ▸ hv0, e1 ▸ hv1⟩
    rw [DecodeTraceparent, if_neg (by omega)]
    simp only [h2, h35, h52]
    rw [if_neg (by omega), if_neg (by omega), if_neg (by omega)]
    simp only [hv0, hv1]
    rw [if_neg hv']
  · intro hver hflg
    obtain ⟨e0, e1⟩ : v0 = 48 ∧ v1 = 48 := by
      constructor
      · have := hver.1; rw [hv0] at this; exact Option.some.inj this
      · have := hver.2; rw [hv1] at this; exact Option.some.inj this
    have hfl0 : ¬ (f0 = 48 ∧ f1 = 48) := by
      intro ⟨g0, g1⟩; exact hflg ⟨g0 ▸ hf0, Or.inl (g1 ▸ hf1)⟩
    have hfl1 : ¬ (f0 = 48 ∧ f1 = 49) := by
      intro ⟨g0, g1⟩; exact hflg ⟨g0 ▸ hf0, Or.inr (g1 ▸ hf1)⟩
    rw [DecodeTraceparent, if_neg (by omega)]
    simp only [h2, h35, h52]
    rw [if_neg (by omega), if_neg (by omega), if_neg (by omega)]
    simp only [hv0, hv1, e0, e1]
    rw [if_pos (by simp)]
    simp only [hf0, hf1]
    rw [if_neg hfl0, if_neg hfl1]

/-- C6 witness: version "01" is rejected as invalid version; version
"00" with flags "02" is rejected as invalid flag — both on otherwise
arbitrary id content ('z' is not even a hex character). -/
theorem DecodeTraceparent_version_flag_witness :
    DecodeTraceparent
      (("01-zzzzzzzzzzzzzzzzzzzzzzzzzzzzzzzz-zzzzzzzzzzzzzzzz-01".toList).map Char.toNat) =
      some ⟨0, zeroTid, zeroPid, 0, some .invalidVersion⟩ ∧
    DecodeTraceparent
      (("00-zzzzzzzzzzzzzzzzzzzzzzzzzzzzzzzz-zzzzzzzzzzzzzzzz-02".toList).map Char.toNat) =
      some ⟨0, zeroTid, zeroPid, 0, some .invalidFlag⟩ :=
  ⟨(DecodeTraceparent_version_flag _ (by decide) (by decide) (by decide) (by decide)).1
      (by decide),
   (DecodeTraceparent_version_flag _ (by decide) (by decide) (by decide) (by decide)).2
      (by decide) (by decide)⟩

/-- C4 (amended): on a 55-character header that passes the dash,
version, flag and hex-character checks, decoding fails with "invalid
trace id" exactly when the decoded trace id is all-zero; it fails with
"invalid parent id" exactly when the trace id is not all-zero and the
decoded parent id is all-zero (when both ids are all-zero the trace-id
error wins, because the trace-id check returns first); and the running
additive checksum (`val`, the sum of the decoded bytes) is zero exactly
when every decoded byte is zero. -/
theorem DecodeTraceparent_zero_ids (header : List Nat) (tid pid : List Nat)
    (flg : Nat) (hl : header.length = 55)
    (h2 : header.get? 2 = some 45) (h35 : header.get? 35 = some 45)
    (h52 : header.get? 52 = some 45)
    (hv : header.get? 0 = some 48 ∧ header.get? 1 = some 48)
    (hf : (header.get? 53 = some 48 ∧ header.get? 54 = some 48 ∧ flg = 0) ∨
          (header.get? 53 = some 48 ∧ header.get? 54 = some 49 ∧ flg = 1))
    (htid : decodePairs header 3 0 16 = some (tid, true))
    (hpid : decodePairs header 36 0 8 = some (pid, true)) :
    (tid.sum = 0 →
      DecodeTraceparent header = some ⟨0, tid, zeroPid, flg, some .invalidTraceId⟩) ∧
    (tid.sum ≠ 0 → pid.sum = 0 →
      DecodeTraceparent header = some ⟨0, tid, pid, flg, some .invalidParentId⟩) ∧
    (tid.sum ≠ 0 → pid.sum ≠ 0 →
      DecodeTraceparent header = some ⟨0, tid, pid, flg, none⟩) ∧
    (tid.sum = 0 ↔ ∀ b ∈ tid, b = 0) ∧
    (pid.sum = 0 ↔ ∀ b ∈ pid, b = 0) := by
  have hD : DecodeTraceparent header = decodeIds header flg := by
    rw [DecodeTraceparent, if_neg (by omega)]
    simp only [h2, h35, h52]
    rw [if_neg (by omega), if_neg (by omega), if_neg (by omega)]
    simp only [hv.1, hv.2]
    rw [if_pos (by simp)]
    rcases hf with ⟨hf0, hf1, hflg⟩ | ⟨hf0, hf1, hflg⟩
    · simp only [hf0, hf1]
      rw [if_pos (by simp), hflg]
    · simp only [hf0, hf1]
      rw [if_neg (by simp), if_pos (by simp), hflg]
  refine ⟨?_, ?_, ?_, List.sum_eq_zero_iff, List.sum_eq_zero_iff⟩
  · intro hz
    rw [hD, decodeIds]
    simp only [htid]
    rw [if_pos hz]
  · intro hnz hpz
    rw [hD, decodeIds]
    simp only [htid]
    rw [if_neg hnz]
    simp only [hpid]
    rw [if_pos hpz]
  · intro hnz hpnz
    rw [hD, decodeIds]
    simp only [htid]
    rw [if_neg hnz]
    simp only [hpid]
    rw [if_neg hpnz]

/-- C4 witness: a header whose parent id is all-zero (trace id valid)
fails with the parent-id error. -/
theorem DecodeTraceparent_zero_ids_witness :
    DecodeTraceparent
      (("00-0102030405060708090a0b0c0d0e0f10-0000000000000000-00".toList).map Char.toNat) =
      some ⟨0, [1, 2, 3, 4, 5, 6, 7, 8, 9, 10, 11, 12, 13, 14, 15, 16],
        List.replicate 8 0, 0, some .invalidParentId⟩ :=
  (DecodeTraceparent_zero_ids _ _ _ 0 (by decide) (by decide) (by decide) (by decide)
    (by decide) (Or.inl (by decide)) (by decide) (by decide)).2.1 (by decide) (by decide)

/-- C4 counterexample to the claim as frozen: a well-formed all-hex
header whose trace id AND parent id are both all-zero passes the dash,
version, flag and hex checks and its decoded parent id is all-zero,
yet decoding does not fail with the parent-id error — the trace-id
error is reported instead.  This refutes the unconditional
"fails with invalid parent id iff the decoded parent id is all-zero". -/
theorem DecodeTraceparent_zero_ids_counterexample :
    decodePairs
      (("00-00000000000000000000000000000000-0000000000000000-00".toList).map Char.toNat)
      36 0 8 = some (List.replicate 8 0, true) ∧
    (List.replicate 8 0).sum = 0 ∧
    DecodeTraceparent
      (("00-00000000000000000000000000000000-0000000000000000-00".toList).map Char.toNat) =
      some ⟨0, zeroTid, zeroPid, 0, some .invalidTraceId⟩ ∧
    DecodeErr.invalidTraceId ≠ DecodeErr.invalidParentId := by
  refine ⟨by decide, by decide, by decide, by decide⟩

/-! ### Totality and error-state facts -/

theorem decodeIds_ne_none (header : List Nat) (flg : Nat)
    (hl : header.length = 55) : decodeIds header flg ≠ none := by
  intro h
  rw [decodeIds] at h
  cases hp : decodePairs header 3 0 16 with
  | none => exact decodePairs_ne_none header 3 16 0 (fun j hj => by omega) hp
  | some p =>
    obtain ⟨tid, ok⟩ := p
    cases ok with
    | false =>
      simp only [hp] at h
      exact Option.noConfusion h
    | true =>
      simp only [hp] at h
      split at h
      · exact Option.noConfusion h
      · cases hq : decodePairs header 36 0 8 with
        | none => exact decodePairs_ne_none header 36 8 0 (fun j hj => by omega) hq
        | some q =>
          obtain ⟨pid, ok2⟩ := q
          cases ok2 with
          | false =>
            simp only [hq] at h
            exact Option.noConfusion h
          | true =>
            simp only [hq] at h
            split at h <;> exact Option.noConfusion h

/-- C10: decoding is total and never makes an out-of-bounds access on
any input: every byte index the source reads (2, 35, 52, 0–1, 53–54
and the id ranges) is read only after the length-equals-55 check has
passed, so for every input the function returns a result — a decoded
header or a typed error — and never the `none` that models a Go
panic. -/
theorem DecodeTraceparent_total (header : List Nat) :
    ∃ r, DecodeTraceparent header = some r := by
  cases hD : DecodeTraceparent header with
  | some r => exact ⟨r, rfl⟩
  | none =>
    exfalso
    rw [DecodeTraceparent] at hD
    by_cases hl : header.length = 55
    · rw [if_neg (by omega)] at hD
      obtain ⟨a, ha⟩ := get?_some_of_lt (l := header) (n := 2) (by omega)
      simp only [ha] at hD
      split at hD
      · exact Option.noConfusion hD
      · obtain ⟨b, hb⟩ := get?_some_of_lt (l := header) (n := 35) (by omega)
        simp only [hb] at hD
        split at hD
        · exact Option.noConfusion hD
        · obtain ⟨c, hc⟩ := get?_some_of_lt (l := header) (n := 52) (by omega)
          simp only [hc] at hD
          split at hD
          · exact Option.noConfusion hD
          · obtain ⟨v0, hv0⟩ := get?_some_of_lt (l := header) (n := 0) (by omega)
            obtain ⟨v1, hv1⟩ := get?_some_of_lt (l := header) (n := 1) (by omega)
            simp only [hv0, hv1] at hD
            split at hD
            · obtain ⟨f0, hf0⟩ := get?_some_of_lt (l := header) (n := 53) (by omega)
              obtain ⟨f1, hf1⟩ := get?_some_of_lt (l := header) (n := 54) (by omega)
              simp only [hf0, hf1] at hD
              split at hD
              · exact decodeIds_ne_none header 0 hl hD
              · split at hD
                · exact decodeIds_ne_none header 1 hl hD
                · exact Option.noConfusion hD
            · exact Option.noConfusion hD
    · rw [if_pos hl] at hD
      exact Option.noConfusion hD

theorem decodeIds_err_state (header : List Nat) (flg : Nat) (r : DecodeResult)
    (h : decodeIds header flg = some r) :
    r.ver = 0 ∧ r.err ≠ some .invalidLength ∧ r.err ≠ some .invalidFormat ∧
    r.err ≠ some .invalidVersion ∧ r.err ≠ some .invalidFlag ∧
    (r.err = some .invalidTraceId → r.pid = zeroPid) := by
  rw [decodeIds] at h
  cases hp : decodePairs header 3 0 16 with
  | none =>
    rw [hp] at h
    exact Option.noConfusion h
  | some p =>
    obtain ⟨tid, ok⟩ := p
    cases ok with
    | false =>
      simp only [hp] at h
      cases h
      exact ⟨rfl, by simp, by simp, by simp, by simp, fun _ => rfl⟩
    | true =>
      simp only [hp] at h
      split at h
      · cases h
        exact ⟨rfl, by simp, by simp, by simp, by simp, fun _ => rfl⟩
      · cases hq : decodePairs header 36 0 8 with
        | none =>
          rw [hq] at h
          exact Option.noConfusion h
        | some q =>
          obtain ⟨pid, ok2⟩ := q
          cases ok2 with
          | false =>
            simp only [hq] at h
            cases h
            exact ⟨rfl, by simp, by simp, by simp, by simp, by simp⟩
          | true =>
            simp only [hq] at h
            split at h <;> cases h <;>
              exact ⟨rfl, by simp, by simp, by simp, by simp, by simp⟩

theorem err_state_of_ids (r : DecodeResult)
    (g : r.ver = 0 ∧ r.err ≠ some .invalidLength ∧ r.err ≠ some .invalidFormat ∧
      r.err ≠ some .invalidVersion ∧ r.err ≠ some .invalidFlag ∧
      (r.err = some .invalidTraceId → r.pid = zeroPid)) :
    r.ver = 0 ∧
    ((r.err = some .invalidLength ∨ r.err = some .invalidFormat ∨
      r.err = some .invalidVersion ∨ r.err = some .invalidFlag) →
      r.tid = zeroTid ∧ r.pid = zeroPid ∧ r.flg = 0) ∧
    (r.err = some .invalidTraceId → r.pid = zeroPid) := by
  obtain ⟨g0, g1, g2, g3, g4, g5⟩ := g
  refine ⟨g0, fun hc => ?_, g5⟩
  rcases hc with hc | hc | hc | hc
  · exact absurd hc g1
  · exact absurd hc g2
  · exact absurd hc g3
  · exact absurd hc g4

/-- C3 (amended): every failure of `DecodeTraceparent` is reported as a
typed error value; the returned version is always zero, and on the
length, format, version and flag failures all four returned values are
their zero values.  But the decoder returns Go's named return values as
assigned so far, so on a trace-id failure the already-validated flag
byte is returned (and the parent id is still zero), and on a parent-id
failure the fully decoded trace id and the flag are returned: the
original claim that every failure returns all-zero values is false
(see the counterexample). -/
theorem DecodeTraceparent_err_state (header : List Nat) (r : DecodeResult)
    (h : DecodeTraceparent header = some r) :
    r.ver = 0 ∧
    ((r.err = some .invalidLength ∨ r.err = some .invalidFormat ∨
      r.err = some .invalidVersion ∨ r.err = some .invalidFlag) →
      r.tid = zeroTid ∧ r.pid = zeroPid ∧ r.flg = 0) ∧
    (r.err = some .invalidTraceId → r.pid = zeroPid) := by
  rw [DecodeTraceparent] at h
  by_cases hl : header.length = 55
  · rw [if_neg (by omega)] at h
    obtain ⟨a, ha⟩ := get?_some_of_lt (l := header) (n := 2) (by omega)
    simp only [ha] at h
    split at h
    · cases h
      exact ⟨rfl, fun _ => ⟨rfl, rfl, rfl⟩, by simp⟩
    · obtain ⟨b, hb⟩ := get?_some_of_lt (l := header) (n := 35) (by omega)
      simp only [hb] at h
      split at h
      · cases h
        exact ⟨rfl, fun _ => ⟨rfl, rfl, rfl⟩, by simp⟩
      · obtain ⟨c, hc⟩ := get?_some_of_lt (l := header) (n := 52) (by omega)
        simp only [hc] at h
        split at h
        · cases h
          exact ⟨rfl, fun _ => ⟨rfl, rfl, rfl⟩, by simp⟩
        · obtain ⟨v0, hv0⟩ := get?_some_of_lt (l := header) (n := 0) (by omega)
          obtain ⟨v1, hv1⟩ := get?_some_of_lt (l := header) (n := 1) (by omega)
          simp only [hv0, hv1] at h
          split at h
          · obtain ⟨f0, hf0⟩ := get?_some_of_lt (l := header) (n := 53) (by omega)
            obtain ⟨f1, hf1⟩ := get?_some_of_lt (l := header) (n := 54) (by omega)
            simp only [hf0, hf1] at h
            split at h
            · exact err_state_of_ids r (decodeIds_err_state header 0 r h)
            · split at h
              · exact err_state_of_ids r (decodeIds_err_state header 1 r h)
              · cases h
                exact ⟨rfl, fun _ => ⟨rfl, rfl, rfl⟩, by simp⟩
          · cases h
            exact ⟨rfl, fun _ => ⟨rfl, rfl, rfl⟩, by simp⟩
  · rw [if_pos hl] at h
    cases h
    exact ⟨rfl, fun _ => ⟨rfl, rfl, rfl⟩, by simp⟩

/-- C3 witness for the amended statement, at the length-error input. -/
theorem DecodeTraceparent_err_state_witness :
    (⟨0, zeroTid, zeroPid, 0, some DecodeErr.invalidLength⟩ : DecodeResult).ver = 0 ∧
    (((⟨0, zeroTid, zeroPid, 0, some DecodeErr.invalidLength⟩ : DecodeResult).err =
        some .invalidLength ∨
      (⟨0, zeroTid, zeroPid, 0, some DecodeErr.invalidLength⟩ : DecodeResult).err =
        some .invalidFormat ∨
      (⟨0, zeroTid, zeroPid, 0, some DecodeErr.invalidLength⟩ : DecodeResult).err =
        some .invalidVersion ∨
      (⟨0, zeroTid, zeroPid, 0, some DecodeErr.invalidLength⟩ : DecodeResult).err =
        some .invalidFlag) →
      (⟨0, zeroTid, zeroPid, 0, some DecodeErr.invalidLength⟩ : DecodeResult).tid = zeroTid ∧
      (⟨0, zeroTid, zeroPid, 0, some DecodeErr.invalidLength⟩ : DecodeResult).pid = zeroPid ∧
      (⟨0, zeroTid, zeroPid, 0, some DecodeErr.invalidLength⟩ : DecodeResult).flg = 0) ∧
    ((⟨0, zeroTid, zeroPid, 0, some DecodeErr.invalidLength⟩ : DecodeResult).err =
        some .invalidTraceId →
      (⟨0, zeroTid, zeroPid, 0, some DecodeErr.invalidLength⟩ : DecodeResult).pid = zeroPid) :=
  DecodeTraceparent_err_state (List.replicate 54 48)
    ⟨0, zeroTid, zeroPid, 0, some DecodeErr.invalidLength⟩ (by decide)

/-- C3 counterexample: a header with valid version "00" and flag "01"
whose trace id begins "aazz…" fails with the trace-id error, yet the
returned flag is 1 (not its zero value 0) and the returned trace id has
first byte 0xaa = 170 (not all-zero): decoding exposes partially
decoded values to the caller on this failure path. -/
theorem DecodeTraceparent_err_state_counterexample :
    DecodeTraceparent
      (("00-aazz0000000000000000000000000000-0102030405060708-01".toList).map Char.toNat) =
      some ⟨0, 170 :: List.replicate 15 0, List.replicate 8 0, 1,
        some .invalidTraceId⟩ ∧
    (1 : Nat) ≠ 0 ∧ (170 :: List.replicate 15 0 : List Nat) ≠ List.replicate 16 0 := by
  refine ⟨by decide, by decide, by decide⟩

/-! ### The accepted hex alphabet and the encoder's output alphabet -/

/-- C2: over the full byte range 0..255, the characters the decoder's
nibble test accepts — `c - '0'` (8-bit) in 0..9, else `c - 'W'` (8-bit)
in 10..15 — are exactly the canonical lower-case hex alphabet
`'0'..'9'` (48..57) and `'a'..'f'` (97..102); in particular upper-case
`'A'..'F'` is rejected.  A rejected character makes the trace-id loop
report "invalid trace id" and the parent-id loop report "invalid parent
id" (last two conjuncts). -/
theorem decNib_alphabet :
    (∀ c, c < 256 →
      (((c + 256 - 48) % 256 ≤ 9 ∨
        (10 ≤ (c + 256 - 87) % 256 ∧ (c + 256 - 87) % 256 ≤ 15)) ↔
       ((48 ≤ c ∧ c ≤ 57) ∨ (97 ≤ c ∧ c ≤ 102)))) ∧
    (∀ c, c < 256 →
      ((decNib c).isSome ↔ ((48 ≤ c ∧ c ≤ 57) ∨ (97 ≤ c ∧ c ≤ 102)))) ∧
    (∀ header tid flg, decodePairs header 3 0 16 = some (tid, false) →
      decodeIds header flg = some ⟨0, tid, zeroPid, flg, some .invalidTraceId⟩) ∧
    (∀ header tid pid flg, decodePairs header 3 0 16 = some (tid, true) →
      tid.sum ≠ 0 → decodePairs header 36 0 8 = some (pid, false) →
      decodeIds header flg = some ⟨0, tid, pid, flg, some .invalidParentId⟩) := by
  refine ⟨by set_option maxRecDepth 4000 in decide, by set_option maxRecDepth 4000 in decide, ?_, ?_⟩
  · intro header tid flg hp
    rw [decodeIds]
    simp only [hp]
  · intro header tid pid flg hp hts hq
    rw [decodeIds]
    simp only [hp]
    rw [if_neg hts]
    simp only [hq]

/-- C2 witness: `'a'` (97) is accepted, upper-case `'A'` (65) and `'W'`
(87) are rejected. -/
theorem decNib_alphabet_witness :
    (decNib 97).isSome ∧ ¬ (decNib 65).isSome ∧ ¬ (decNib 87).isSome :=
  ⟨(decNib_alphabet.2.1 97 (by decide)).mpr (Or.inr (by decide)),
   fun h => by rcases (decNib_alphabet.2.1 65 (by decide)).mp h with h | h <;> omega,
   fun h => by rcases (decNib_alphabet.2.1 87 (by decide)).mp h with h | h <;> omega⟩

theorem hexChar_range (d : Nat) (h : d < 16) :
    (48 ≤ hexChar d ∧ hexChar d ≤ 57) ∨ (97 ≤ hexChar d ∧ hexChar d ≤ 102) := by
  unfold hexChar
  split_ifs <;> omega

theorem byteToHex_mem {c b : Nat} (h : c ∈ byteToHex b) :
    ∃ d, d < 16 ∧ c = hexChar d := by
  simp only [byteToHex, List.mem_cons, List.not_mem_nil, or_false] at h
  rcases h with rfl | rfl
  · exact ⟨b % 256 / 16, by omega, rfl⟩
  · exact ⟨b % 16, by omega, rfl⟩

theorem bytesToHex_mem {c : Nat} {bs : List Nat} (h : c ∈ bytesToHex bs) :
    ∃ d, d < 16 ∧ c = hexChar d := by
  rw [bytesToHex, List.mem_flatten] at h
  obtain ⟨l, hl, hc⟩ := h
  rw [List.mem_map] at hl
  obtain ⟨b, -, hb⟩ := hl
  exact byteToHex_mem (hb ▸ hc)

/-- C5: encoding is a total function — it validates nothing and cannot
fail on any byte values — and always produces exactly 55 characters,
with the dash at indices 2, 35 and 52 and each field written into its
fixed slot as lower-case hex, two characters per byte; every character
of the output is a dash or a lower-case hex digit. -/
theorem EncodeTraceparent_spec (ver : Nat) (tid pid : List Nat) (flg : Nat)
    (ht : tid.length = 16) (hp : pid.length = 8) :
    (EncodeTraceparent ver tid pid flg).length = 55 ∧
    (EncodeTraceparent ver tid pid flg).get? 2 = some 45 ∧
    (EncodeTraceparent ver tid pid flg).get? 35 = some 45 ∧
    (EncodeTraceparent ver tid pid flg).get? 52 = some 45 ∧
    (EncodeTraceparent ver tid pid flg).get? 0 = some (hexChar (ver % 256 / 16)) ∧
    (EncodeTraceparent ver tid pid flg).get? 1 = some (hexChar (ver % 16)) ∧
    (∀ j, j < 16 →
      (EncodeTraceparent ver tid pid flg).get? (3 + 2*j) =
        some (hexChar ((tid.getD j 0) % 256 / 16)) ∧
      (EncodeTraceparent ver tid pid flg).get? (3 + 2*j + 1) =
        some (hexChar (tid.getD j 0 % 16))) ∧
    (∀ j, j < 8 →
      (EncodeTraceparent ver tid pid flg).get? (36 + 2*j) =
        some (hexChar ((pid.getD j 0) % 256 / 16)) ∧
      (EncodeTraceparent ver tid pid flg).get? (36 + 2*j + 1) =
        some (hexChar (pid.getD j 0 % 16))) ∧
    (EncodeTraceparent ver tid pid flg).get? 53 = some (hexChar (flg % 256 / 16)) ∧
    (EncodeTraceparent ver tid pid flg).get? 54 = some (hexChar (flg % 16)) ∧
    (∀ c ∈ EncodeTraceparent ver tid pid flg,
      c = 45 ∨ (48 ≤ c ∧ c ≤ 57) ∨ (97 ≤ c ∧ c ≤ 102)) := by
  refine ⟨EncodeTraceparent_length ver tid pid flg ht hp,
    (Encode_get?_ver ver tid pid flg).2.2,
    Encode_get?_dash35 ver tid pid flg ht,
    Encode_get?_dash52 ver tid pid flg ht hp,
    (Encode_get?_ver ver tid pid flg).1,
    (Encode_get?_ver ver tid pid flg).2.1,
    fun j hj => Encode_get?_tid ver tid pid flg ht j hj,
    fun j hj => Encode_get?_pid ver tid pid flg ht hp j hj,
    (Encode_get?_flg ver tid pid flg ht hp).1,
    (Encode_get?_flg ver tid pid flg ht hp).2,
    ?_⟩
  intro c hc
  unfold EncodeTraceparent at hc
  simp only [List.mem_append, List.mem_singleton] at hc
  have hhex : (∃ d, d < 16 ∧ c = hexChar d) → (48 ≤ c ∧ c ≤ 57) ∨ (97 ≤ c ∧ c ≤ 102) := by
    rintro ⟨d, hd, rfl⟩
    exact hexChar_range d hd
  rcases hc with h | h | h | h | h | h | h
  · exact Or.inr (hhex (byteToHex_mem h))
  · exact Or.inl h
  · exact Or.inr (hhex (bytesToHex_mem h))
  · exact Or.inl h
  · exact Or.inr (hhex (bytesToHex_mem h))
  · exact Or.inl h
  · exact Or.inr (hhex (byteToHex_mem h))

/-- C5 witness: concrete instance of the encode contract. -/
theorem EncodeTraceparent_spec_witness :
    (EncodeTraceparent 0 (List.replicate 16 255) (List.replicate 8 255) 1).length = 55 ∧
    (EncodeTraceparent 0 (List.replicate 16 255) (List.replicate 8 255) 1).get? 2 =
      some 45 :=
  ⟨(EncodeTraceparent_spec 0 (List.replicate 16 255) (List.replicate 8 255) 1
      (by decide) (by decide)).1,
   (EncodeTraceparent_spec 0 (List.replicate 16 255) (List.replicate 8 255) 1
      (by decide) (by decide)).2.1⟩

/-! ### Round trip -/

/-- C1: for version byte 0x00, any 16-byte trace id that is not
all-zero, any 8-byte parent id that is not all-zero and any flags byte
in {0x00, 0x01}, decoding the encoded header succeeds and returns
exactly the encoded values. -/
theorem DecodeTraceparent_EncodeTraceparent (tid pid : List Nat) (flg : Nat)
    (ht : tid.length = 16) (hp : pid.length = 8)
    (htb : ∀ b ∈ tid, b < 256) (hpb : ∀ b ∈ pid, b < 256)
    (htz : ¬ (∀ b ∈ tid, b = 0)) (hpz : ¬ (∀ b ∈ pid, b = 0))
    (hf : flg = 0 ∨ flg = 1) :
    DecodeTraceparent (EncodeTraceparent 0 tid pid flg) =
      some ⟨0, tid, pid, flg, none⟩ := by
  have hlen := EncodeTraceparent_length 0 tid pid flg ht hp
  have hv := Encode_get?_ver 0 tid pid flg
  have h35 := Encode_get?_dash35 0 tid pid flg ht
  have h52 := Encode_get?_dash52 0 tid pid flg ht hp
  have hfl := Encode_get?_flg 0 tid pid flg ht hp
  have htid : decodePairs (EncodeTraceparent 0 tid pid flg) 3 0 16 = some (tid, true) := by
    have hc := decodePairs_complete (EncodeTraceparent 0 tid pid flg) 3 tid 0 htb
      (fun j hj => by
        have hg := Encode_get?_tid 0 tid pid flg ht j (by omega)
        simpa using hg)
    rwa [ht] at hc
  have hpid : decodePairs (EncodeTraceparent 0 tid pid flg) 36 0 8 = some (pid, true) := by
    have hc := decodePairs_complete (EncodeTraceparent 0 tid pid flg) 36 pid 0 hpb
      (fun j hj => by
        have hg := Encode_get?_pid 0 tid pid flg ht hp j (by omega)
        simpa using hg)
    rwa [hp] at hc
  have hts : tid.sum ≠ 0 := fun hs => htz (List.sum_eq_zero_iff.mp hs)
  have hps : pid.sum ≠ 0 := fun hs => hpz (List.sum_eq_zero_iff.mp hs)
  have hv0 : (EncodeTraceparent 0 tid pid flg).get? 0 = some 48 := by
    have := hv.1
    simpa [hexChar] using this
  have hv1 : (EncodeTraceparent 0 tid pid flg).get? 1 = some 48 := by
    have := hv.2.1
    simpa [hexChar] using this
  rw [DecodeTraceparent, if_neg (by omega)]
  simp only [hv.2.2, h35, h52]
  rw [if_neg (by omega), if_neg (by omega), if_neg (by omega)]
  simp only [hv0, hv1]
  rw [if_pos (by simp)]
  rcases hf with rfl | rfl
  · have hf0 : (EncodeTraceparent 0 tid pid 0).get? 53 = some 48 := by
      have := hfl.1
      simpa [hexChar] using this
    have hf1 : (EncodeTraceparent 0 tid pid 0).get? 54 = some 48 := by
      have := hfl.2
      simpa [hexChar] using this
    simp only [hf0, hf1]
    rw [if_pos (by simp), decodeIds]
    simp only [htid]
    rw [if_neg hts]
    simp only [hpid]
    rw [if_neg hps]
  · have hf0 : (EncodeTraceparent 0 tid pid 1).get? 53 = some 48 := by
      have := hfl.1
      simpa [hexChar] using this
    have hf1 : (EncodeTraceparent 0 tid pid 1).get? 54 = some 49 := by
      have := hfl.2
      simpa [hexChar] using this
    simp only [hf0, hf1]
    rw [if_neg (by simp), if_pos (by simp), decodeIds]
    simp only [htid]
    rw [if_neg hts]
    simp only [hpid]
    rw [if_neg hps]

/-- C1 witness: the spec's concrete round-trip scenario. -/
theorem DecodeTraceparent_EncodeTraceparent_witness :
    DecodeTraceparent (EncodeTraceparent 0
      [1, 2, 3, 4, 5, 6, 7, 8, 9, 10, 11, 12, 13, 14, 15, 16]
      [1, 2, 3, 4, 5, 6, 7, 8] 1) =
      some ⟨0, [1, 2, 3, 4, 5, 6, 7, 8, 9, 10, 11, 12, 13, 14, 15, 16],
        [1, 2, 3, 4, 5, 6, 7, 8], 1, none⟩ :=
  DecodeTraceparent_EncodeTraceparent
    [1, 2, 3, 4, 5, 6, 7, 8, 9, 10, 11, 12, 13, 14, 15, 16]
    [1, 2, 3, 4, 5, 6, 7, 8] 1 (by decide) (by decide) (by decide) (by decide)
    (by decide) (by decide) (Or.inr rfl)

/-! ### Decode success inversion and the left-inverse property -/

theorem decodeIds_ok_inv (header : List Nat) (flg : Nat) (r : DecodeResult)
    (h : decodeIds header flg = some r) (he : r.err = none) :
    r.ver = 0 ∧ r.flg = flg ∧
    decodePairs header 3 0 16 = some (r.tid, true) ∧ r.tid.sum ≠ 0 ∧
    decodePairs header 36 0 8 = some (r.pid, true) ∧ r.pid.sum ≠ 0 := by
  rw [decodeIds] at h
  cases hp : decodePairs header 3 0 16 with
  | none =>
    rw [hp] at h
    exact Option.noConfusion h
  | some p =>
    obtain ⟨tid, ok⟩ := p
    cases ok with
    | false =>
      simp only [hp] at h
      cases h
      simp at he
    | true =>
      simp only [hp] at h
      split at h
      · cases h
        simp at he
      · rename_i hts
        cases hq : decodePairs header 36 0 8 with
        | none =>
          rw [hq] at h
          exact Option.noConfusion h
        | some q =>
          obtain ⟨pid, ok2⟩ := q
          cases ok2 with
          | false =>
            simp only [hq] at h
            cases h
            simp at he
          | true =>
            simp only [hq] at h
            split at h
            · cases h
              simp at he
            · rename_i hps
              cases h
              exact ⟨rfl, rfl, by simp [hp], hts, by simp [hq], hps⟩

theorem DecodeTraceparent_ok_inv (header : List Nat) (r : DecodeResult)
    (h : DecodeTraceparent header = some r) (he : r.err = none) :
    header.length = 55 ∧ header.get? 2 = some 45 ∧ header.get? 35 = some 45 ∧
    header.get? 52 = some 45 ∧ header.get? 0 = some 48 ∧ header.get? 1 = some 48 ∧
    ((header.get? 53 = some 48 ∧ header.get? 54 = some 48 ∧ r.flg = 0) ∨
     (header.get? 53 = some 48 ∧ header.get? 54 = some 49 ∧ r.flg = 1)) ∧
    r.ver = 0 ∧
    decodePairs header 3 0 16 = some (r.tid, true) ∧ r.tid.sum ≠ 0 ∧
    decodePairs header 36 0 8 = some (r.pid, true) ∧ r.pid.sum ≠ 0 := by
  rw [DecodeTraceparent] at h
  by_cases hl : header.length = 55
  · rw [if_neg (by omega)] at h
    obtain ⟨a, ha⟩ := get?_some_of_lt (l := header) (n := 2) (by omega)
    simp only [ha] at h
    split at h
    · cases h
      simp at he
    · rename_i ha45
      have ha' : header.get? 2 = some 45 := by rw [ha]; congr 1; omega
      obtain ⟨b, hb⟩ := get?_some_of_lt (l := header) (n := 35) (by omega)
      simp only [hb] at h
      split at h
      · cases h
        simp at he
      · rename_i hb45
        have hb' : header.get? 35 = some 45 := by rw [hb]; congr 1; omega
        obtain ⟨c, hc⟩ := get?_some_of_lt (l := header) (n := 52) (by omega)
        simp only [hc] at h
        split at h
        · cases h
          simp at he
        · rename_i hc45
          have hc' : header.get? 52 = some 45 := by rw [hc]; congr 1; omega
          obtain ⟨v0, hv0⟩ := get?_some_of_lt (l := header) (n := 0) (by omega)
          obtain ⟨v1, hv1⟩ := get?_some_of_lt (l := header) (n := 1) (by omega)
          simp only [hv0, hv1] at h
          split at h
          · rename_i hv48
            have hv0' : header.get? 0 = some 48 := by rw [hv0, hv48.1]
            have hv1' : header.get? 1 = some 48 := by rw [hv1, hv48.2]
            obtain ⟨f0, hf0⟩ := get?_some_of_lt (l := header) (n := 53) (by omega)
            obtain ⟨f1, hf1⟩ := get?_some_of_lt (l := header) (n := 54) (by omega)
            simp only [hf0, hf1] at h
            split at h
            · rename_i hf48
              obtain ⟨g0, g1, g2, g3, g4, g5⟩ := decodeIds_ok_inv header 0 r h he
              exact ⟨hl, ha', hb', hc', hv0', hv1',
                Or.inl ⟨by rw [hf0, hf48.1], by rw [hf1, hf48.2], g1⟩,
                g0, g2, g3, g4, g5⟩
            · split at h
              · rename_i hf49
                obtain ⟨g0, g1, g2, g3, g4, g5⟩ := decodeIds_ok_inv header 1 r h he
                exact ⟨hl, ha', hb', hc', hv0', hv1',
                  Or.inr ⟨by rw [hf0, hf49.1], by rw [hf1, hf49.2], g1⟩,
                  g0, g2, g3, g4, g5⟩
              · cases h
                simp at he
          · cases h
            simp at he
  · rw [if_pos hl] at h
    cases h
    simp at he

/-- C9: encode is a left inverse of decode on accepted inputs: if a
header (a byte string, every character below 256) decodes without
error, re-encoding the decoded version, trace id, parent id and flags
reproduces the header character for character — possible only because
decode accepts solely lower-case hex digits, exactly what encode
emits. -/
theorem EncodeTraceparent_DecodeTraceparent (header : List Nat) (r : DecodeResult)
    (hb : ∀ c ∈ header, c < 256)
    (h : DecodeTraceparent header = some r) (he : r.err = none) :
    EncodeTraceparent r.ver r.tid r.pid r.flg = header := by
  obtain ⟨hl, h2, h35, h52, h0, h1, hflag, hver, htid, hts, hpid, hps⟩ :=
    DecodeTraceparent_ok_inv header r h he
  obtain ⟨hlt, htidc⟩ := decodePairs_sound header 3 16 0 r.tid htid
  obtain ⟨hlp, hpidc⟩ := decodePairs_sound header 36 8 0 r.pid hpid
  have htid' : ∀ j, j < 16 →
      header.get? (3 + 2*j) = some (hexChar ((r.tid.getD j 0) % 256 / 16)) ∧
      header.get? (3 + 2*j + 1) = some (hexChar (r.tid.getD j 0 % 16)) := by
    intro j hj
    obtain ⟨c1, d1, c2, d2, g1, g2, g3, g4, g5⟩ := htidc j hj
    have hc1b : c1 < 256 := hb c1 (List.get?_mem g1)
    have hc2b : c2 < 256 := hb c2 (List.get?_mem g3)
    obtain ⟨hd1, hc1e⟩ := decNib_byte hc1b g2
    obtain ⟨hd2, hc2e⟩ := decNib_byte hc2b g4
    have e1 : r.tid.getD j 0 % 256 / 16 = d1 := by rw [g5]; omega
    have e2 : r.tid.getD j 0 % 16 = d2 := by rw [g5]; omega
    constructor
    · rw [e1, ← hc1e]
      simpa using g1
    · rw [e2, ← hc2e]
      simpa using g3
  have hpid' : ∀ j, j < 8 →
      header.get? (36 + 2*j) = some (hexChar ((r.pid.getD j 0) % 256 / 16)) ∧
      header.get? (36 + 2*j + 1) = some (hexChar (r.pid.getD j 0 % 16)) := by
    intro j hj
    obtain ⟨c1, d1, c2, d2, g1, g2, g3, g4, g5⟩ := hpidc j hj
    have hc1b : c1 < 256 := hb c1 (List.get?_mem g1)
    have hc2b : c2 < 256 := hb c2 (List.get?_mem g3)
    obtain ⟨hd1, hc1e⟩ := decNib_byte hc1b g2
    obtain ⟨hd2, hc2e⟩ := decNib_byte hc2b g4
    have e1 : r.pid.getD j 0 % 256 / 16 = d1 := by rw [g5]; omega
    have e2 : r.pid.getD j 0 % 16 = d2 := by rw [g5]; omega
    constructor
    · rw [e1, ← hc1e]
      simpa using g1
    · rw [e2, ← hc2e]
      simpa using g3
  have hEl : (EncodeTraceparent r.ver r.tid r.pid r.flg).length = 55 :=
    EncodeTraceparent_length r.ver r.tid r.pid r.flg hlt hlp
  apply List.ext_get?
  intro n
  by_cases hn : n < 55
  · by_cases h3r : 3 ≤ n ∧ n ≤ 34
    · obtain ⟨j, hj, hjn⟩ : ∃ j, j < 16 ∧ (n = 3 + 2*j ∨ n = 3 + 2*j + 1) :=
        ⟨(n - 3) / 2, by omega, by omega⟩
      rcases hjn with rfl | rfl
      · rw [(Encode_get?_tid r.ver r.tid r.pid r.flg hlt j hj).1, (htid' j hj).1]
      · rw [(Encode_get?_tid r.ver r.tid r.pid r.flg hlt j hj).2, (htid' j hj).2]
    · by_cases h36r : 36 ≤ n ∧ n ≤ 51
      · obtain ⟨j, hj, hjn⟩ : ∃ j, j < 8 ∧ (n = 36 + 2*j ∨ n = 36 + 2*j + 1) :=
          ⟨(n - 36) / 2, by omega, by omega⟩
        rcases hjn with rfl | rfl
        · rw [(Encode_get?_pid r.ver r.tid r.pid r.flg hlt hlp j hj).1, (hpid' j hj).1]
        · rw [(Encode_get?_pid r.ver r.tid r.pid r.flg hlt hlp j hj).2, (hpid' j hj).2]
      · have hcase : n = 0 ∨ n = 1 ∨ n = 2 ∨ n = 35 ∨ n = 52 ∨ n = 53 ∨ n = 54 := by
          omega
        rcases hcase with rfl | rfl | rfl | rfl | rfl | rfl | rfl
        · rw [(Encode_get?_ver r.ver r.tid r.pid r.flg).1, h0, hver]
          simp [hexChar]
        · rw [(Encode_get?_ver r.ver r.tid r.pid r.flg).2.1, h1, hver]
          simp [hexChar]
        · rw [(Encode_get?_ver r.ver r.tid r.pid r.flg).2.2, h2]
        · rw [Encode_get?_dash35 r.ver r.tid r.pid r.flg hlt, h35]
        · rw [Encode_get?_dash52 r.ver r.tid r.pid r.flg hlt hlp, h52]
        · rw [(Encode_get?_flg r.ver r.tid r.pid r.flg hlt hlp).1]
          rcases hflag with ⟨hf0, hf1, hfv⟩ | ⟨hf0, hf1, hfv⟩ <;> rw [hf0, hfv] <;>
            simp [hexChar]
        · rw [(Encode_get?_flg r.ver r.tid r.pid r.flg hlt hlp).2]
          rcases hflag with ⟨hf0, hf1, hfv⟩ | ⟨hf0, hf1, hfv⟩ <;> rw [hf1, hfv] <;>
            simp [hexChar]
  · rw [List.get?_eq_none.mpr (by omega), List.get?_eq_none.mpr (by omega)]

/-- C9 witness: re-encoding the decoded concrete header reproduces it. -/
theorem EncodeTraceparent_DecodeTraceparent_witness :
    EncodeTraceparent 0 [1, 2, 3, 4, 5, 6, 7, 8, 9, 10, 11, 12, 13, 14, 15, 16]
      [1, 2, 3, 4, 5, 6, 7, 8] 1 =
      ("00-0102030405060708090a0b0c0d0e0f10-0102030405060708-01".toList).map Char.toNat :=
  EncodeTraceparent_DecodeTraceparent
    (("00-0102030405060708090a0b0c0d0e0f10-0102030405060708-01".toList).map Char.toNat)
    ⟨0, [1, 2, 3, 4, 5, 6, 7, 8, 9, 10, 11, 12, 13, 14, 15, 16],
      [1, 2, 3, 4, 5, 6, 7, 8], 1, none⟩
    (by decide) (by decide) rfl

-- sanity checks (concrete scenario of the spec, §8)
example :
    EncodeTraceparent 0
      [1, 2, 3, 4, 5, 6, 7, 8, 9, 10, 11, 12, 13, 14, 15, 16]
      [1, 2, 3, 4, 5, 6, 7, 8] 1 =
    ((("00-0102030405060708090a0b0c0d0e0f10-0102030405060708-01".toList).map Char.toNat)) := by
  decide

example :
    DecodeTraceparent
      (("00-0102030405060708090a0b0c0d0e0f10-0102030405060708-01".toList).map Char.toNat) =
    some ⟨0, [1, 2, 3, 4, 5, 6, 7, 8, 9, 10, 11, 12, 13, 14, 15, 16],
          [1, 2, 3, 4, 5, 6, 7, 8], 1, none⟩ := by
  decide

example :
    DecodeTraceparent
      (("00-00000000000000000000000000000000-0102030405060708-00".toList).map Char.toNat) =
    some ⟨0, zeroTid, zeroPid, 0, some .invalidTraceId⟩ := by
  decide

end Trace
